import Mathlib

/-!
Formal model of the core state machines of the `node-red-contrib-utils`
repository: the ordered collector node (`rp-array-out`,
`src/nodes/io/array-out.js`), the rate-limited queue node (`rp-queue`,
two implementations in the source), and the position tagger
(`rp-array-in` together with `NodeUtils.resolveArrayPosition`).

Modelling conventions:

* A JS object keyed by non-negative integers (`node.collection`) is
  modelled as an association list with an overwriting store.  Every
  observation the source makes of that object — key count,
  `hasOwnProperty`/index lookup, explicitly sorted key list — is
  insensitive to entry order, so the representation is faithful.
* Timestamps are naturals (milliseconds, the value of `Date.now()`).
* Timers are modelled explicitly.  The collector records whether its
  collection timer (`node.timeoutHandle`) is armed, plus a count of the
  outstanding fire-and-forget status-reset timers the source creates
  with bare `setTimeout(setStatusReady, ...)` calls.  The queue records
  the absolute deadline of its single send timer (`state.timer`).
* `node.send([a, b])` is modelled as emissions on channel 1 (primary)
  and channel 2 (secondary/diagnostic); emission constructors carry the
  metadata fields the source attaches to the outgoing message.
-/

/- ══════════════════════════════════════════════════════════════════
   Part 1.  Ordered collector (`rp-array-out`, src/nodes/io/array-out.js)
   ══════════════════════════════════════════════════════════════════ -/

/-- Configuration of one `rp-array-out` instance after the constructor
validated it: `expectedCount` is a positive integer (an invalid value is
replaced by the default 2 before any message is processed), `timeoutMs`
is the collection timeout. -/
structure ACfg where
  expectedCount : Nat
  timeoutMs : Nat
deriving Repr, DecidableEq

/-- Per-instance mutable state of `rp-array-out`: `collection` models
the JS object `node.collection`, `isCollecting`, `collectionStartTime`
and the armed collection timer (`node.timeoutHandle`) are direct
counterparts; `statusTimers` counts the outstanding fire-and-forget
`setTimeout(setStatusReady, ...)` callbacks created on completion and
on timeout. -/
structure AState (α : Type) where
  collection : List (Nat × α)
  isCollecting : Bool
  collectionStartTime : Option Nat
  timerArmed : Bool
  statusTimers : Nat
deriving Repr, DecidableEq

/-- The state a fresh `rp-array-out` instance starts in (section 2 of
the source file). -/
def initA {α : Type} : AState α := ⟨[], false, none, false, 0⟩

/-- `node.collection[position] = data`: overwriting store into the
collection object, keyed by the position. -/
def slotsSet {α : Type} (p : Nat) (v : α) (c : List (Nat × α)) : List (Nat × α) :=
  (p, v) :: c.filter (fun e => e.1 != p)

/-- `resetCollection()`: cancel the pending collection timer and clear
the cycle state. -/
def resetCollection {α : Type} (st : AState α) : AState α :=
  { st with collection := [], isCollecting := false,
            collectionStartTime := none, timerArmed := false }

/-- The dense ordered array built on both the completion and the
timeout path: `Array.from({length: N}, (_, i) =>
collection.hasOwnProperty(i) ? collection[i] : null)`.  `none` is the
JS `null` placeholder. -/
def buildResult {α : Type} (n : Nat) (c : List (Nat × α)) : List (Option α) :=
  (List.range n).map (fun i => c.lookup i)

/-- Emissions of the collector.  `success` is `node.send([outMsg,
null])` carrying the assembled array; `timeoutEmit` is
`node.send([null, timeoutMsg])` carrying the partial array and the
`msg.meta` diagnostic fields built by `handleTimeout`. -/
inductive AEmit (α : Type) where
  | success (result : List (Option α))
  | timeoutEmit (result : List (Option α))
      (missingPositions collectedPositions : List Nat)
      (expectedCount collectedCount elapsed : Nat)
deriving Repr, DecidableEq

/-- `handleTimeout()`: build the diagnostic metadata and the partial
array, send it on output 2 only, reset the cycle, and schedule a
status-reset timer. -/
def handleTimeout {α : Type} (cfg : ACfg) (now : Nat) (st : AState α) :
    AState α × List (AEmit α) :=
  let elapsed := now - st.collectionStartTime.getD 0
  let collectedPositions := List.insertionSort (· ≤ ·) (st.collection.map Prod.fst)
  let missingPositions :=
    (List.range cfg.expectedCount).filter (fun i => (st.collection.lookup i).isNone)
  let result := buildResult cfg.expectedCount st.collection
  ({ resetCollection st with statusTimers := st.statusTimers + 1 },
   [AEmit.timeoutEmit result missingPositions collectedPositions
      cfg.expectedCount collectedPositions.length elapsed])

/-- `assembleAndOutput(sourceMsg)`: build the ordered array, send it on
output 1, schedule a status-reset timer and reset the cycle. -/
def assembleAndOutput {α : Type} (cfg : ACfg) (st : AState α) :
    AState α × List (AEmit α) :=
  ({ resetCollection st with statusTimers := st.statusTimers + 1 },
   [AEmit.success (buildResult cfg.expectedCount st.collection)])

/-- Step 4.4 of the input handler: start a collection cycle — clear the
slots, record the start time and arm the collection timeout timer. -/
def startCollecting {α : Type} (now : Nat) (st : AState α) : AState α :=
  { st with isCollecting := true, collection := [],
            collectionStartTime := some now, timerArmed := true }

/-- The `node.on('input')` handler of `rp-array-out`, given a message
whose `msg.meta.arrayPosition` is the number `position` and whose
extracted data is `data`.  Steps 4.2 (range check), 4.4 (lazy cycle
start with timer arming), 4.5 (store) and 4.7 (completion check) of the
source. -/
def submit {α : Type} (cfg : ACfg) (now : Nat) (st : AState α)
    (position : Int) (data : α) : AState α × List (AEmit α) :=
  if position < 0 ∨ (cfg.expectedCount : Int) ≤ position then (st, [])
  else
    let st₁ := if st.isCollecting then st else startCollecting now st
    let st₂ := { st₁ with collection := slotsSet position.toNat data st₁.collection }
    if st₂.collection.length = cfg.expectedCount then assembleAndOutput cfg st₂
    else (st₂, [])

/-- Events delivered to one collector instance: an input message with a
numeric position tag, the collection timer firing, or one of the
fire-and-forget status-reset timers firing. -/
inductive AEvent (α : Type) where
  | submit (position : Int) (data : α)
  | timerFire
  | statusFire
deriving Repr, DecidableEq

/-- One scheduler step of the collector.  The collection timer callback
runs only while its handle is armed (a cancelled timer never fires); a
status-reset timer firing only touches the status display. -/
def stepA {α : Type} (cfg : ACfg) (now : Nat) (st : AState α) :
    AEvent α → AState α × List (AEmit α)
  | .submit p v => submit cfg now st p v
  | .timerFire => if st.timerArmed then handleTimeout cfg now st else (st, [])
  | .statusFire => ({ st with statusTimers := st.statusTimers - 1 }, [])

/-- Run a collector instance over a timestamped event trace,
accumulating emissions. -/
def runA {α : Type} (cfg : ACfg) : AState α → List (Nat × AEvent α) →
    AState α × List (AEmit α)
  | st, [] => (st, [])
  | st, (t, e) :: rest =>
    let r := stepA cfg t st e
    let r' := runA cfg r.1 rest
    (r'.1, r.2 ++ r'.2)

/-- A list of submit events all delivered at time `t`. -/
def submitEvents {α : Type} (t : Nat) (l : List (Nat × α)) : List (Nat × AEvent α) :=
  l.map (fun e => (t, AEvent.submit (e.1 : Int) e.2))

/-- Number of timer callbacks outstanding for one collector instance:
the armed collection timer plus the pending status-reset timers. -/
def pendingTimers {α : Type} (st : AState α) : Nat :=
  (if st.timerArmed then 1 else 0) + st.statusTimers

/-- The cycle-relevant core of the collector state (collection slots,
collecting flag, start time, collection timer). -/
def coreOf {α : Type} (st : AState α) : List (Nat × α) × Bool × Option Nat × Bool :=
  (st.collection, st.isCollecting, st.collectionStartTime, st.timerArmed)

/-- The input handler of `rp-array-out` under a failing host `send` /
`RED.util.setMessageProperty`: on the completion path
`assembleAndOutput` throws before `node.send` and before the
status-reset `setTimeout`, and the `catch` handler runs
`resetCollection()`.  On a non-completing submit no fallible host call
is made, so the result agrees with `submit`. -/
def submitEmitFails {α : Type} (cfg : ACfg) (now : Nat) (st : AState α)
    (position : Int) (data : α) : AState α :=
  if position < 0 ∨ (cfg.expectedCount : Int) ≤ position then st
  else
    let st₁ := if st.isCollecting then st else startCollecting now st
    let st₂ := { st₁ with collection := slotsSet position.toNat data st₁.collection }
    if st₂.collection.length = cfg.expectedCount then resetCollection st₂
    else st₂

/- ══════════════════════════════════════════════════════════════════
   Part 2.  Association-list lemmas for the collection object
   ══════════════════════════════════════════════════════════════════ -/

theorem lookup_cons {α : Type} (a : Nat) (b : α) (l : List (Nat × α)) (k : Nat) :
    List.lookup k ((a, b) :: l) = if k = a then some b else List.lookup k l := by
  by_cases h : k = a
  · simp [List.lookup, h]
  · have hb : (k == a) = false := by simp [h]
    simp [List.lookup, hb, h]

theorem lookup_eq_none_iff {α : Type} (l : List (Nat × α)) (k : Nat) :
    List.lookup k l = none ↔ k ∉ l.map Prod.fst := by
  induction l with
  | nil => simp [List.lookup]
  | cons p rest ih =>
    cases p with
    | mk a b =>
      by_cases h : k = a
      · subst h; simp [lookup_cons]
      · simp [lookup_cons, h, ih]

theorem lookup_slotsSet {α : Type} (c : List (Nat × α)) (p : Nat) (v : α) (q : Nat) :
    (slotsSet p v c).lookup q = if q = p then some v else c.lookup q := by
  unfold slotsSet
  by_cases h : q = p
  · simp [lookup_cons, h]
  · rw [lookup_cons, if_neg h, if_neg h]
    induction c with
    | nil => simp
    | cons e rest ih =>
      cases e with
      | mk a b =>
        by_cases ha : a = p
        · subst ha
          have : ¬ q = a := h
          simp [lookup_cons, this, ih]
        · have hane : (a != p) = true := by simp [ha]
          simp only [List.filter_cons, hane, if_true]
          by_cases hq : q = a
          · simp [lookup_cons, hq]
          · simp [lookup_cons, hq, ih]

theorem slotsSet_of_not_mem {α : Type} (c : List (Nat × α)) (p : Nat) (v : α)
    (h : p ∉ c.map Prod.fst) : slotsSet p v c = (p, v) :: c := by
  unfold slotsSet
  congr 1
  rw [List.filter_eq_self]
  intro e he
  have : e.1 ∈ c.map Prod.fst := List.mem_map_of_mem Prod.fst he
  have hne : e.1 ≠ p := fun hc => h (hc ▸ this)
  simp [hne]

theorem keys_slotsSet_subset {α : Type} (c : List (Nat × α)) (p : Nat) (v : α) :
    ∀ k ∈ (slotsSet p v c).map Prod.fst, k = p ∨ k ∈ c.map Prod.fst := by
  intro k hk
  unfold slotsSet at hk
  simp only [List.map_cons, List.mem_cons] at hk
  rcases hk with h | h
  · exact Or.inl h
  · right
    rcases List.mem_map.mp h with ⟨e, he, rfl⟩
    exact List.mem_map_of_mem Prod.fst (List.mem_of_mem_filter he)

theorem lookup_append {α : Type} (l₁ l₂ : List (Nat × α)) (k : Nat) :
    List.lookup k (l₁ ++ l₂) =
      (List.lookup k l₁).orElse (fun _ => List.lookup k l₂) := by
  induction l₁ with
  | nil => simp [List.lookup]
  | cons p rest ih =>
    cases p with
    | mk a b =>
      by_cases h : k = a
      · simp [lookup_cons, h]
      · simp only [List.cons_append, lookup_cons, if_neg h]
        exact ih

theorem lookup_reverse {α : Type} (l : List (Nat × α))
    (h : (l.map Prod.fst).Nodup) (k : Nat) :
    l.reverse.lookup k = l.lookup k := by
  induction l with
  | nil => rfl
  | cons p rest ih =>
    cases p with
    | mk a b =>
      simp only [List.map_cons, List.nodup_cons] at h
      rw [List.reverse_cons, lookup_append, ih h.2]
      by_cases hk : k = a
      · subst hk
        have hnone : rest.lookup k = none := (lookup_eq_none_iff rest k).mpr h.1
        rw [hnone]
        simp [lookup_cons, Option.orElse]
      · simp only [lookup_cons, if_neg hk]
        cases rest.lookup k <;> rfl

theorem lookup_of_mem {α : Type} (l : List (Nat × α))
    (h : (l.map Prod.fst).Nodup) (k : Nat) (v : α) (hm : (k, v) ∈ l) :
    l.lookup k = some v := by
  induction l with
  | nil => cases hm
  | cons p rest ih =>
    cases p with
    | mk a b =>
      simp only [List.map_cons, List.nodup_cons] at h
      rcases List.mem_cons.mp hm with he | ht
      · cases he
        simp [lookup_cons]
      · have hka : k ≠ a := by
          intro hk
          exact h.1 (hk ▸ List.mem_map_of_mem Prod.fst ht)
        rw [lookup_cons, if_neg hka]
        exact ih h.2 ht

/- ══════════════════════════════════════════════════════════════════
   Part 3.  Run lemmas for the collector
   ══════════════════════════════════════════════════════════════════ -/

theorem runA_nil {α : Type} (cfg : ACfg) (st : AState α) :
    runA cfg st [] = (st, []) := rfl

theorem runA_cons {α : Type} (cfg : ACfg) (st : AState α) (t : Nat)
    (e : AEvent α) (rest : List (Nat × AEvent α)) :
    runA cfg st ((t, e) :: rest) =
      ((runA cfg (stepA cfg t st e).1 rest).1,
       (stepA cfg t st e).2 ++ (runA cfg (stepA cfg t st e).1 rest).2) := rfl

theorem runA_append {α : Type} (cfg : ACfg) (l₁ l₂ : List (Nat × AEvent α)) :
    ∀ st : AState α,
      runA cfg st (l₁ ++ l₂) =
        ((runA cfg (runA cfg st l₁).1 l₂).1,
         (runA cfg st l₁).2 ++ (runA cfg (runA cfg st l₁).1 l₂).2) := by
  induction l₁ with
  | nil => intro st; simp [runA_nil]
  | cons e rest ih =>
    intro st
    obtain ⟨t, ev⟩ := e
    simp only [List.cons_append, runA_cons, ih, List.append_assoc]

theorem submitEvents_nil {α : Type} (t : Nat) :
    submitEvents t ([] : List (Nat × α)) = [] := rfl

theorem submitEvents_cons {α : Type} (t : Nat) (e : Nat × α) (l : List (Nat × α)) :
    submitEvents t (e :: l) =
      (t, AEvent.submit (e.1 : Int) e.2) :: submitEvents t l := rfl

theorem submitEvents_cons' {α : Type} (t p : Nat) (v : α) (l : List (Nat × α)) :
    submitEvents t ((p, v) :: l) =
      (t, AEvent.submit (p : Int) v) :: submitEvents t l := rfl

theorem submit_not_collecting {α : Type} (cfg : ACfg) (now : Nat) (st : AState α)
    (p : Int) (v : α) (h : st.isCollecting = false)
    (hr : ¬(p < 0 ∨ (cfg.expectedCount : Int) ≤ p)) :
    submit cfg now st p v = submit cfg now (startCollecting now st) p v := by
  unfold submit startCollecting
  rw [if_neg hr, if_neg hr]
  simp [h]

theorem runA_submit_head_start {α : Type} (cfg : ACfg) (st : AState α) (t : Nat)
    (p : Int) (v : α) (evs : List (Nat × AEvent α)) (h : st.isCollecting = false)
    (hr : ¬(p < 0 ∨ (cfg.expectedCount : Int) ≤ p)) :
    runA cfg st ((t, AEvent.submit p v) :: evs) =
      runA cfg (startCollecting t st) ((t, AEvent.submit p v) :: evs) := by
  rw [runA_cons, runA_cons]
  simp only [stepA]
  rw [submit_not_collecting cfg t st p v h hr]

theorem submit_collecting_step {α : Type} (cfg : ACfg) (now : Nat) (st : AState α)
    (p : Nat) (v : α) (hp : p < cfg.expectedCount) (hc : st.isCollecting = true)
    (hfresh : p ∉ st.collection.map Prod.fst) :
    submit cfg now st (p : Int) v =
      (if st.collection.length + 1 = cfg.expectedCount
       then ({ resetCollection st with statusTimers := st.statusTimers + 1 },
             [AEmit.success (buildResult cfg.expectedCount ((p, v) :: st.collection))])
       else ({ st with collection := (p, v) :: st.collection }, [])) := by
  have h1 : ¬((p : Int) < 0 ∨ (cfg.expectedCount : Int) ≤ (p : Int)) := by omega
  unfold submit
  rw [if_neg h1]
  simp only [hc, if_true, Int.toNat_natCast]
  rw [slotsSet_of_not_mem _ _ _ hfresh]
  simp only [List.length_cons]
  rfl

theorem submit_collecting_step_general {α : Type} (cfg : ACfg) (now : Nat)
    (st : AState α) (p : Nat) (v : α) (hp : p < cfg.expectedCount)
    (hc : st.isCollecting = true) :
    submit cfg now st (p : Int) v =
      (if (slotsSet p v st.collection).length = cfg.expectedCount
       then ({ resetCollection st with statusTimers := st.statusTimers + 1 },
             [AEmit.success (buildResult cfg.expectedCount (slotsSet p v st.collection))])
       else ({ st with collection := slotsSet p v st.collection }, [])) := by
  have h1 : ¬((p : Int) < 0 ∨ (cfg.expectedCount : Int) ≤ (p : Int)) := by omega
  unfold submit
  rw [if_neg h1]
  simp only [hc, if_true, Int.toNat_natCast]
  rfl

theorem runA_submits_open {α : Type} (cfg : ACfg) (t : Nat) :
    ∀ (l : List (Nat × α)) (st : AState α),
      st.isCollecting = true →
      (st.collection.map Prod.fst ++ l.map Prod.fst).Nodup →
      (∀ p ∈ l.map Prod.fst, p < cfg.expectedCount) →
      st.collection.length + l.length < cfg.expectedCount →
      runA cfg st (submitEvents t l) =
        ({ st with collection := l.reverse ++ st.collection }, []) := by
  intro l
  induction l with
  | nil =>
    intro st hc _ _ _
    cases st
    simp [runA_nil, submitEvents_nil]
  | cons e rest ih =>
    obtain ⟨p, v⟩ := e
    intro st hc hnd hrange hlen
    simp only [List.map_cons] at hnd
    have hp : p < cfg.expectedCount := hrange p (by simp)
    have hfresh : p ∉ st.collection.map Prod.fst := by
      have hd := List.disjoint_of_nodup_append hnd
      intro hm
      exact hd hm (by simp)
    have hnd2 : (p :: (st.collection.map Prod.fst ++ rest.map Prod.fst)).Nodup :=
      List.perm_middle.nodup hnd
    have hne : ¬ (st.collection.length + 1 = cfg.expectedCount) := by
      simp only [List.length_cons] at hlen
      omega
    rw [submitEvents_cons, runA_cons]
    simp only [stepA]
    rw [submit_collecting_step cfg t st p v hp hc hfresh, if_neg hne]
    have ihr := ih { st with collection := (p, v) :: st.collection }
      (by simpa using hc)
      (by simpa using hnd2)
      (fun q hq => hrange q (by simp [hq]))
      (by simp only [List.length_cons] at hlen ⊢; omega)
    rw [ihr]
    simp [List.reverse_cons, List.append_assoc]

theorem runA_submits_complete {α : Type} (cfg : ACfg) (t : Nat) :
    ∀ (l : List (Nat × α)) (st : AState α),
      l ≠ [] →
      st.isCollecting = true →
      (st.collection.map Prod.fst ++ l.map Prod.fst).Nodup →
      (∀ p ∈ l.map Prod.fst, p < cfg.expectedCount) →
      st.collection.length + l.length = cfg.expectedCount →
      runA cfg st (submitEvents t l) =
        (⟨[], false, none, false, st.statusTimers + 1⟩,
         [AEmit.success (buildResult cfg.expectedCount (l.reverse ++ st.collection))]) := by
  intro l
  induction l with
  | nil => intro st hne; exact absurd rfl hne
  | cons e rest ih =>
    obtain ⟨p, v⟩ := e
    intro st _ hc hnd hrange hlen
    simp only [List.map_cons] at hnd
    have hp : p < cfg.expectedCount := hrange p (by simp)
    have hfresh : p ∉ st.collection.map Prod.fst := by
      have hd := List.disjoint_of_nodup_append hnd
      intro hm
      exact hd hm (by simp)
    rw [submitEvents_cons, runA_cons]
    simp only [stepA]
    rw [submit_collecting_step cfg t st p v hp hc hfresh]
    cases rest with
    | nil =>
      have hfin : st.collection.length + 1 = cfg.expectedCount := by
        simp only [List.length_cons, List.length_nil] at hlen
        omega
      rw [if_pos hfin]
      simp only [submitEvents_nil, runA_nil]
      cases st
      simp [resetCollection]
    | cons r₀ rest' =>
      have hne : ¬ (st.collection.length + 1 = cfg.expectedCount) := by
        simp only [List.length_cons] at hlen
        omega
      rw [if_neg hne]
      have hnd2 : (p :: (st.collection.map Prod.fst ++ (r₀ :: rest').map Prod.fst)).Nodup :=
        List.perm_middle.nodup hnd
      have ihr := ih { st with collection := (p, v) :: st.collection }
        (by simp)
        (by simpa using hc)
        (by simpa using hnd2)
        (fun q hq => hrange q (by simp at hq ⊢; tauto))
        (by simp only [List.length_cons] at hlen ⊢; omega)
      rw [ihr]
      simp [List.reverse_cons, List.append_assoc]

/-- Folding a list of stores into the collection object. -/
def insertAll {α : Type} (c l : List (Nat × α)) : List (Nat × α) :=
  l.foldl (fun acc e => slotsSet e.1 e.2 acc) c

theorem insertAll_nil {α : Type} (c : List (Nat × α)) : insertAll c [] = c := rfl

theorem insertAll_cons {α : Type} (c : List (Nat × α)) (e : Nat × α)
    (l : List (Nat × α)) :
    insertAll c (e :: l) = insertAll (slotsSet e.1 e.2 c) l := rfl

theorem insertAll_append {α : Type} (c l₁ l₂ : List (Nat × α)) :
    insertAll c (l₁ ++ l₂) = insertAll (insertAll c l₁) l₂ := by
  unfold insertAll
  exact List.foldl_append _ _ _ _

theorem lookup_insertAll_not_mem {α : Type} (l : List (Nat × α)) :
    ∀ (c : List (Nat × α)) (k : Nat), k ∉ l.map Prod.fst →
      (insertAll c l).lookup k = c.lookup k := by
  induction l with
  | nil => intro c k _; rfl
  | cons e rest ih =>
    intro c k hk
    obtain ⟨a, b⟩ := e
    simp only [List.map_cons, List.mem_cons] at hk
    push_neg at hk
    rw [insertAll_cons, ih _ k hk.2, lookup_slotsSet, if_neg hk.1]

theorem runA_submits_noemit {α : Type} (cfg : ACfg) (t : Nat) :
    ∀ (l : List (Nat × α)) (st : AState α),
      st.isCollecting = true →
      (∀ p ∈ l.map Prod.fst, p < cfg.expectedCount) →
      (runA cfg st (submitEvents t l)).2 = [] →
      runA cfg st (submitEvents t l) =
        ({ st with collection := insertAll st.collection l }, []) := by
  intro l
  induction l with
  | nil =>
    intro st hc _ _
    cases st
    simp [runA_nil, submitEvents_nil, insertAll_nil]
  | cons e rest ih =>
    obtain ⟨p, v⟩ := e
    intro st hc hrange hno
    have hp : p < cfg.expectedCount := hrange p (by simp)
    rw [submitEvents_cons, runA_cons] at hno ⊢
    simp only [stepA] at hno ⊢
    rw [submit_collecting_step_general cfg t st p v hp hc] at hno ⊢
    by_cases hcomp : (slotsSet p v st.collection).length = cfg.expectedCount
    · rw [if_pos hcomp] at hno
      simp at hno
    · rw [if_neg hcomp] at hno ⊢
      simp only [List.nil_append] at hno ⊢
      have ihr := ih { st with collection := slotsSet p v st.collection }
        (by simpa using hc)
        (fun q hq => hrange q (by simp [hq]))
        hno
      rw [ihr, insertAll_cons]

/- ══════════════════════════════════════════════════════════════════
   Part 4.  Collector claims
   ══════════════════════════════════════════════════════════════════ -/

theorem submit_eq {α : Type} (cfg : ACfg) (now : Nat) (st : AState α)
    (position : Int) (data : α) :
    submit cfg now st position data =
      if position < 0 ∨ (cfg.expectedCount : Int) ≤ position then (st, [])
      else
        if (slotsSet position.toNat data
              (if st.isCollecting then st else startCollecting now st).collection).length
            = cfg.expectedCount
        then assembleAndOutput cfg
          { (if st.isCollecting then st else startCollecting now st) with
            collection := slotsSet position.toNat data
              (if st.isCollecting then st else startCollecting now st).collection }
        else
          ({ (if st.isCollecting then st else startCollecting now st) with
             collection := slotsSet position.toNat data
               (if st.isCollecting then st else startCollecting now st).collection },
           []) := rfl

/-- Claim C1: for every `expectedCount ≥ 1` and every interleaving
(permutation) of the positions `0..N-1`, submitting one tagged item per
position before the timeout elapses yields exactly one emission, on the
primary channel, whose array holds the submitted values in position
order with no gaps, and no timeout emission. -/
theorem c1_completion {α : Type} (cfg : ACfg) (t : Nat) (items : List (Nat × α))
    (hN : 1 ≤ cfg.expectedCount)
    (hperm : (items.map Prod.fst).Perm (List.range cfg.expectedCount)) :
    runA cfg initA (submitEvents t items) =
      (⟨[], false, none, false, 1⟩,
       [AEmit.success ((List.range cfg.expectedCount).map (fun j => items.lookup j))])
    ∧ ∀ i v, (i, v) ∈ items →
        ((List.range cfg.expectedCount).map (fun j => items.lookup j))[i]? =
          some (some v) := by
  have hnd : (items.map Prod.fst).Nodup :=
    hperm.nodup_iff.mpr (List.nodup_range cfg.expectedCount)
  have hlen : items.length = cfg.expectedCount := by
    have h1 := hperm.length_eq
    simpa using h1
  have hrange : ∀ p ∈ items.map Prod.fst, p < cfg.expectedCount := by
    intro p hp
    exact List.mem_range.mp (hperm.subset hp)
  constructor
  · have hne : items ≠ [] := by
      intro h
      rw [h] at hlen
      simp at hlen
      omega
    obtain ⟨e, rest, hi⟩ := List.exists_cons_of_ne_nil hne
    subst hi
    obtain ⟨p, v⟩ := e
    have hp : p < cfg.expectedCount := hrange p (by simp)
    have hr : ¬((p : Int) < 0 ∨ (cfg.expectedCount : Int) ≤ (p : Int)) := by omega
    rw [submitEvents_cons']
    rw [runA_submit_head_start cfg initA t _ v _ rfl hr]
    rw [← submitEvents_cons']
    rw [runA_submits_complete cfg t ((p, v) :: rest) (startCollecting t initA)
      (by simp) rfl
      (by simp only [startCollecting, initA, List.map_nil, List.nil_append]; exact hnd)
      hrange
      (by simp only [startCollecting, initA, List.length_nil, Nat.zero_add]; exact hlen)]
    have hbr : buildResult cfg.expectedCount
        (((p, v) :: rest).reverse ++ (startCollecting t initA).collection)
        = (List.range cfg.expectedCount).map (fun j => ((p, v) :: rest).lookup j) := by
      unfold buildResult
      simp only [startCollecting, initA, List.append_nil, lookup_reverse _ hnd]
    rw [hbr]
    simp [startCollecting, initA]
  · intro i v₀ hm
    have hi : i < cfg.expectedCount :=
      List.mem_range.mp (hperm.subset (List.mem_map_of_mem Prod.fst hm))
    rw [List.getElem?_map]
    simp [List.getElem?_range, hi, lookup_of_mem items hnd i v₀ hm]

/-- Claim C2: submitting a nonempty strict subset `S` of the positions
and letting the collection timer elapse yields exactly one emission, on
the secondary channel only, whose `collectedPositions` is `S` sorted
ascending, whose `missingPositions` is the complement of `S` in
`[0, expectedCount)` in ascending order, and whose partial array holds
the stored value at every submitted index and the null placeholder
exactly at the missing ones. -/
theorem c2_timeout_emission {α : Type} (cfg : ACfg) (t₀ t₁ : Nat)
    (S : List (Nat × α)) (hne : S ≠ []) (hnd : (S.map Prod.fst).Nodup)
    (hrange : ∀ p ∈ S.map Prod.fst, p < cfg.expectedCount)
    (hlt : S.length < cfg.expectedCount) :
    runA cfg initA (submitEvents t₀ S ++ [(t₁, AEvent.timerFire)]) =
      (⟨[], false, none, false, 1⟩,
       [AEmit.timeoutEmit
          ((List.range cfg.expectedCount).map (fun j => S.lookup j))
          ((List.range cfg.expectedCount).filter (fun j => (S.lookup j).isNone))
          (List.insertionSort (· ≤ ·) (S.map Prod.fst))
          cfg.expectedCount S.length (t₁ - t₀)]) := by
  obtain ⟨e, rest, hi⟩ := List.exists_cons_of_ne_nil hne
  subst hi
  obtain ⟨p, v⟩ := e
  have hp : p < cfg.expectedCount := hrange p (by simp)
  have hr : ¬((p : Int) < 0 ∨ (cfg.expectedCount : Int) ≤ (p : Int)) := by omega
  rw [submitEvents_cons', List.cons_append]
  rw [runA_submit_head_start cfg initA t₀ _ v _ rfl hr]
  rw [← List.cons_append, ← submitEvents_cons']
  rw [runA_append]
  rw [runA_submits_open cfg t₀ ((p, v) :: rest) (startCollecting t₀ initA)
    rfl
    (by simp only [startCollecting, initA, List.map_nil, List.nil_append]; exact hnd)
    hrange
    (by simp only [startCollecting, initA, List.length_nil, Nat.zero_add]; exact hlt)]
  have hlook := lookup_reverse ((p, v) :: rest) hnd
  have hsortEq : List.insertionSort (· ≤ ·) (((p, v) :: rest).reverse.map Prod.fst)
      = List.insertionSort (· ≤ ·) (((p, v) :: rest).map Prod.fst) := by
    have hip : (((p, v) :: rest).reverse.map Prod.fst).Perm
        (((p, v) :: rest).map Prod.fst) := by
      rw [List.map_reverse]
      exact List.reverse_perm _
    exact List.eq_of_perm_of_sorted
      ((List.perm_insertionSort _ _).trans
        (hip.trans (List.perm_insertionSort _ _).symm))
      (List.sorted_insertionSort _ _) (List.sorted_insertionSort _ _)
  have hcount : (List.insertionSort (· ≤ ·) (((p, v) :: rest).map Prod.fst)).length
      = ((p, v) :: rest).length := by
    rw [(List.perm_insertionSort _ _).length_eq, List.length_map]
  rw [runA_cons]
  simp only [stepA, startCollecting, initA, List.append_nil, runA_nil]
  simp only [handleTimeout, resetCollection, buildResult]
  simp only [hlook, hsortEq, hcount]
  simp

/-- Claim C5: in every reachable state the collection holds keys only
inside `[0, expectedCount)`, and a submit whose position is negative or
`≥ expectedCount` is a pure no-op: state unchanged, no emission. -/
theorem c5_range_invariant {α : Type} (cfg : ACfg) :
    (∀ (st : AState α) (position : Int) (v : α) (now : Nat),
        (position < 0 ∨ (cfg.expectedCount : Int) ≤ position) →
        submit cfg now st position v = (st, []))
    ∧ (∀ evs : List (Nat × AEvent α),
        ∀ k ∈ (runA cfg initA evs).1.collection.map Prod.fst,
          k < cfg.expectedCount) := by
  constructor
  · intro st pos v now h
    unfold submit
    rw [if_pos h]
  · have hstep : ∀ (t : Nat) (e : AEvent α) (st : AState α),
        (∀ k ∈ st.collection.map Prod.fst, k < cfg.expectedCount) →
        ∀ k ∈ (stepA cfg t st e).1.collection.map Prod.fst, k < cfg.expectedCount := by
      intro t e st hst
      cases e with
      | submit pos v =>
        intro k hk
        simp only [stepA, submit_eq] at hk
        by_cases hcond : pos < 0 ∨ (cfg.expectedCount : Int) ≤ pos
        · rw [if_pos hcond] at hk
          exact hst k hk
        · rw [if_neg hcond] at hk
          have hpn : pos.toNat < cfg.expectedCount := by omega
          by_cases hcomp : (slotsSet pos.toNat v
              (if st.isCollecting then st else startCollecting t st).collection).length
              = cfg.expectedCount
          · rw [if_pos hcomp] at hk
            simp [assembleAndOutput, resetCollection] at hk
          · rw [if_neg hcomp] at hk
            have hk' : k ∈ (slotsSet pos.toNat v
                (if st.isCollecting then st
                 else startCollecting t st).collection).map Prod.fst := hk
            rcases keys_slotsSet_subset _ _ _ k hk' with h | h
            · exact h ▸ hpn
            · by_cases hcol : st.isCollecting = true
              · rw [if_pos hcol] at h
                exact hst k h
              · rw [if_neg hcol] at h
                simp [startCollecting] at h
      | timerFire =>
        intro k hk
        simp only [stepA] at hk
        cases hb : st.timerArmed with
        | true =>
          rw [hb] at hk
          simp [handleTimeout, resetCollection] at hk
        | false =>
          rw [hb] at hk
          simp only [Bool.false_eq_true, if_false] at hk
          exact hst k hk
      | statusFire =>
        intro k hk
        exact hst k hk
    intro evs
    suffices h : ∀ (l : List (Nat × AEvent α)) (st : AState α),
        (∀ k ∈ st.collection.map Prod.fst, k < cfg.expectedCount) →
        ∀ k ∈ (runA cfg st l).1.collection.map Prod.fst, k < cfg.expectedCount by
      exact h evs initA (by simp [initA])
    intro l
    induction l with
    | nil =>
      intro st hst
      simpa [runA_nil] using hst
    | cons e rest ih =>
      obtain ⟨t, ev⟩ := e
      intro st hst
      rw [runA_cons]
      exact ih _ (hstep t ev st hst)

/-- Claim C6: within one collection cycle, a later submit at the same
in-range position overwrites the earlier value; the duplicate produces
no emission of its own, and whether the cycle ends by completion or by
timeout, index `p` of the emitted array holds the second value. -/
theorem c6_overwrite {α : Type} (cfg : ACfg) (t₀ : Nat) (p : Nat)
    (v₁ v₂ : α) (mid post : List (Nat × α))
    (hp : p < cfg.expectedCount)
    (hmidrange : ∀ q ∈ mid.map Prod.fst, q < cfg.expectedCount)
    (hpostrange : ∀ q ∈ post.map Prod.fst, q < cfg.expectedCount)
    (hpost : p ∉ post.map Prod.fst)
    (hnoemit : (runA cfg initA
        (submitEvents t₀ ((p, v₁) :: (mid ++ (p, v₂) :: post)))).2 = []) :
    ((runA cfg initA
        (submitEvents t₀ ((p, v₁) :: (mid ++ (p, v₂) :: post)))).1.collection.lookup p
      = some v₂)
    ∧ (∀ t₁, ∃ res missing collected cc el,
        (runA cfg initA
          (submitEvents t₀ ((p, v₁) :: (mid ++ (p, v₂) :: post))
            ++ [(t₁, AEvent.timerFire)])).2 =
          [AEmit.timeoutEmit res missing collected cfg.expectedCount cc el]
        ∧ res[p]? = some (some v₂))
    ∧ (∀ (t₁ : Nat) (q : Int) (v₃ : α) (res : List (Option α)), q ≠ (p : Int) →
        (runA cfg initA
          (submitEvents t₀ ((p, v₁) :: (mid ++ (p, v₂) :: post))
            ++ [(t₁, AEvent.submit q v₃)])).2 = [AEmit.success res] →
        res[p]? = some (some v₂)) := by
  have hr : ¬((p : Int) < 0 ∨ (cfg.expectedCount : Int) ≤ (p : Int)) := by omega
  have hrL : ∀ q ∈ ((p, v₁) :: (mid ++ (p, v₂) :: post)).map Prod.fst,
      q < cfg.expectedCount := by
    intro q hq
    simp only [List.map_cons, List.map_append, List.mem_cons, List.mem_append] at hq
    rcases hq with rfl | hq | hq
    · exact hp
    · exact hmidrange q hq
    · rcases hq with rfl | hq
      · exact hp
      · exact hpostrange q hq
  have hstart : runA cfg initA
      (submitEvents t₀ ((p, v₁) :: (mid ++ (p, v₂) :: post))) =
      runA cfg (startCollecting t₀ initA)
        (submitEvents t₀ ((p, v₁) :: (mid ++ (p, v₂) :: post))) := by
    rw [submitEvents_cons']
    rw [runA_submit_head_start cfg initA t₀ _ v₁ _ rfl hr]
  have hnoemit' : (runA cfg (startCollecting t₀ initA)
      (submitEvents t₀ ((p, v₁) :: (mid ++ (p, v₂) :: post)))).2 = [] := by
    rw [← hstart]
    exact hnoemit
  have hrun := runA_submits_noemit cfg t₀ ((p, v₁) :: (mid ++ (p, v₂) :: post))
    (startCollecting t₀ initA) rfl hrL hnoemit'
  have hlookp : (insertAll (startCollecting t₀ (initA (α := α))).collection
      ((p, v₁) :: (mid ++ (p, v₂) :: post))).lookup p = some v₂ := by
    have h1 : (p, v₁) :: (mid ++ (p, v₂) :: post) =
        ((p, v₁) :: mid) ++ ((p, v₂) :: post) := by
      simp
    rw [h1, insertAll_append, insertAll_cons]
    rw [lookup_insertAll_not_mem post _ p hpost]
    rw [lookup_slotsSet]
    simp
  refine ⟨?_, ?_, ?_⟩
  · rw [hstart, hrun]
    exact hlookp
  · intro t₁
    have hdecomp : (runA cfg initA
        (submitEvents t₀ ((p, v₁) :: (mid ++ (p, v₂) :: post))
          ++ [(t₁, AEvent.timerFire)])).2 =
        (stepA cfg t₁
          ({ startCollecting t₀ (initA (α := α)) with
             collection := insertAll (startCollecting t₀ initA).collection
               ((p, v₁) :: (mid ++ (p, v₂) :: post)) } : AState α)
          AEvent.timerFire).2 := by
      rw [submitEvents_cons', List.cons_append]
      rw [runA_submit_head_start cfg initA t₀ _ v₁ _ rfl hr]
      rw [← List.cons_append, ← submitEvents_cons']
      rw [runA_append, hrun]
      simp [runA_cons, runA_nil]
    refine ⟨buildResult cfg.expectedCount
        (insertAll (startCollecting t₀ initA).collection
          ((p, v₁) :: (mid ++ (p, v₂) :: post))),
      (List.range cfg.expectedCount).filter
        (fun i => ((insertAll (startCollecting t₀ initA).collection
          ((p, v₁) :: (mid ++ (p, v₂) :: post))).lookup i).isNone),
      List.insertionSort (· ≤ ·)
        ((insertAll (startCollecting t₀ initA).collection
          ((p, v₁) :: (mid ++ (p, v₂) :: post))).map Prod.fst),
      (List.insertionSort (· ≤ ·)
        ((insertAll (startCollecting t₀ initA).collection
          ((p, v₁) :: (mid ++ (p, v₂) :: post))).map Prod.fst)).length,
      t₁ - t₀, ?_, ?_⟩
    · rw [hdecomp]
      rfl
    · simp only [buildResult]
      rw [List.getElem?_map]
      simp only [List.getElem?_range, hp, if_pos]
      simp [hlookp]
  · intro t₁ q v₃ res hq hres
    have hdecomp : (runA cfg initA
        (submitEvents t₀ ((p, v₁) :: (mid ++ (p, v₂) :: post))
          ++ [(t₁, AEvent.submit q v₃)])).2 =
        (submit cfg t₁
          ({ startCollecting t₀ (initA (α := α)) with
             collection := insertAll (startCollecting t₀ initA).collection
               ((p, v₁) :: (mid ++ (p, v₂) :: post)) } : AState α)
          q v₃).2 := by
      rw [submitEvents_cons', List.cons_append]
      rw [runA_submit_head_start cfg initA t₀ _ v₁ _ rfl hr]
      rw [← List.cons_append, ← submitEvents_cons']
      rw [runA_append, hrun]
      simp [runA_cons, runA_nil, stepA]
    rw [hdecomp] at hres
    by_cases hcond : q < 0 ∨ (cfg.expectedCount : Int) ≤ q
    · rw [submit_eq, if_pos hcond] at hres
      simp at hres
    · have hqn : q = ((q.toNat : Nat) : Int) := by omega
      have hqlt : q.toNat < cfg.expectedCount := by omega
      have hqp : q.toNat ≠ p := by omega
      rw [hqn] at hres
      rw [submit_collecting_step_general cfg t₁ _ q.toNat v₃ hqlt rfl] at hres
      split at hres
      · simp only [List.cons.injEq, and_true, AEmit.success.injEq] at hres
        rw [← hres]
        simp only [buildResult]
        rw [List.getElem?_map]
        simp only [List.getElem?_range, hp, if_pos, Option.map_some']
        rw [lookup_slotsSet, if_neg (fun hc => hqp hc.symm)]
        simp [hlookp]
      · simp at hres

theorem submitEmitFails_eq {α : Type} (cfg : ACfg) (now : Nat) (st : AState α)
    (position : Int) (data : α) :
    submitEmitFails cfg now st position data =
      if position < 0 ∨ (cfg.expectedCount : Int) ≤ position then st
      else
        if (slotsSet position.toNat data
              (if st.isCollecting then st else startCollecting now st).collection).length
            = cfg.expectedCount
        then resetCollection
          { (if st.isCollecting then st else startCollecting now st) with
            collection := slotsSet position.toNat data
              (if st.isCollecting then st else startCollecting now st).collection }
        else
          { (if st.isCollecting then st else startCollecting now st) with
            collection := slotsSet position.toNat data
              (if st.isCollecting then st else startCollecting now st).collection } := rfl

/-- Claim C7 (amended, collector half): when the host emission fails on
a completing submit, the catch handler's `resetCollection` leaves the
same core state (slots, collecting flag, start time, collection timer)
as the committed transition of a successful completion; a submit that
makes no emission performs no fallible host call, so its state is
exactly the normal one. -/
theorem c7_collector_commit {α : Type} (cfg : ACfg) (now : Nat) (st : AState α)
    (position : Int) (data : α) :
    ((submit cfg now st position data).2 ≠ [] →
      coreOf (submitEmitFails cfg now st position data)
        = coreOf (submit cfg now st position data).1)
    ∧ ((submit cfg now st position data).2 = [] →
      submitEmitFails cfg now st position data
        = (submit cfg now st position data).1) := by
  rw [submit_eq, submitEmitFails_eq]
  by_cases hcond : position < 0 ∨ (cfg.expectedCount : Int) ≤ position
  · simp only [if_pos hcond]
    simp
  · simp only [if_neg hcond]
    by_cases hcomp : (slotsSet position.toNat data
        (if st.isCollecting then st else startCollecting now st).collection).length
        = cfg.expectedCount
    · simp only [if_pos hcomp]
      refine ⟨fun _ => rfl, fun h => ?_⟩
      simp [assembleAndOutput] at h
    · simp only [if_neg hcomp]
      simp

theorem stepA_timer_inv {α : Type} (cfg : ACfg) (t : Nat) (e : AEvent α)
    (st : AState α) (hst : st.timerArmed = true → st.isCollecting = true) :
    (stepA cfg t st e).1.timerArmed = true →
      (stepA cfg t st e).1.isCollecting = true := by
  cases e with
  | submit pos v =>
    simp only [stepA, submit_eq]
    by_cases hcond : pos < 0 ∨ (cfg.expectedCount : Int) ≤ pos
    · simp only [if_pos hcond]
      exact hst
    · simp only [if_neg hcond]
      by_cases hcol : st.isCollecting = true
      · simp only [if_pos hcol]
        split
        · intro habs
          simp [assembleAndOutput, resetCollection] at habs
        · intro h
          exact hst h
      · simp only [if_neg hcol]
        split
        · intro habs
          simp [assembleAndOutput, resetCollection] at habs
        · intro _
          rfl
  | timerFire =>
    simp only [stepA]
    cases hb : st.timerArmed with
    | true => simp [handleTimeout, resetCollection]
    | false => simpa using hst
  | statusFire =>
    exact hst

theorem runA_timer_inv {α : Type} (cfg : ACfg) :
    ∀ (evs : List (Nat × AEvent α)) (st : AState α),
      (st.timerArmed = true → st.isCollecting = true) →
      ((runA cfg st evs).1.timerArmed = true →
        (runA cfg st evs).1.isCollecting = true) := by
  intro evs
  induction evs with
  | nil =>
    intro st hst
    simpa [runA_nil] using hst
  | cons e rest ih =>
    obtain ⟨t, ev⟩ := e
    intro st hst
    rw [runA_cons]
    exact ih _ (stepA_timer_inv cfg t ev st hst)

/- ══════════════════════════════════════════════════════════════════
   Part 5.  Rate-limited queue (`rp-queue`, two implementations in the
   source; `vb = true` models the first one, which routes dropped
   messages to output 2, `vb = false` the second one, which drops
   silently)
   ══════════════════════════════════════════════════════════════════ -/

/-- `config.mode` after normalisation: anything other than the two
recognised strings becomes `legacy`. -/
inductive QMode where
  | timeout
  | queueSize
  | legacy
deriving Repr, DecidableEq

/-- Queue configuration after section 1 of the source: a non-positive
or non-integer value leaves the corresponding bound at 0, meaning
disabled. -/
structure QCfg where
  maxQueueSize : Nat
  intervalMs : Nat
  timeoutMs : Nat
  mode : QMode
deriving Repr, DecidableEq

/-- `useQueueLimit` : the capacity check is active unless mode is
`timeout`. -/
def useQueueLimit (cfg : QCfg) : Bool := cfg.mode != QMode.timeout

/-- `useTimeout` : the age check is active unless mode is
`queue-size`. -/
def useTimeout (cfg : QCfg) : Bool := cfg.mode != QMode.queueSize

/-- One buffered message with its enqueue timestamp. -/
structure QEntry (μ : Type) where
  msg : μ
  enqueuedAt : Nat
deriving Repr, DecidableEq

/-- The mutable `state` object of one queue instance.  `timer` is the
absolute deadline at which the armed send timer fires (`none` when no
timer is pending); `lastSent = 0` is the JS falsy sentinel for "never
sent". -/
structure QState (μ : Type) where
  queue : List (QEntry μ)
  timer : Option Nat
  lastSent : Nat
deriving Repr, DecidableEq

/-- Initial queue state. -/
def initQ {μ : Type} : QState μ := ⟨[], none, 0⟩

/-- Queue emissions: `sent` is `node.send` on output 1;
`droppedTimeout` / `droppedOverflow` carry the `msg.meta` fields the
first implementation attaches before sending on output 2. -/
inductive QEmit (μ : Type) where
  | sent (msg : μ) (time : Nat)
  | droppedTimeout (msg : μ) (queuedDuration queueTimeout time : Nat)
  | droppedOverflow (msg : μ) (queueSize queueMaxSize time : Nat)
deriving Repr, DecidableEq

/-- The front-of-queue expiry loop inside `pruneExpired`: split off the
leading entries whose age `now - enqueuedAt` has reached the timeout. -/
def splitExpired {μ : Type} (now tmo : Nat) :
    List (QEntry μ) → List (QEntry μ) × List (QEntry μ)
  | [] => ([], [])
  | e :: rest =>
    if tmo ≤ now - e.enqueuedAt then
      let r := splitExpired now tmo rest
      (e :: r.1, r.2)
    else ([], e :: rest)

/-- `pruneExpired()`: drop expired entries from the front.  The first
implementation (`vb = true`) sends each dropped message to output 2
with drop metadata; the second logs only. -/
def pruneExpired {μ : Type} (vb : Bool) (cfg : QCfg) (now : Nat)
    (st : QState μ) : QState μ × List (QEmit μ) :=
  if useTimeout cfg = false ∨ cfg.timeoutMs = 0 ∨ st.queue.isEmpty = true then (st, [])
  else
    let r := splitExpired now cfg.timeoutMs st.queue
    ({ st with queue := r.2 },
     if vb then
       r.1.map (fun e =>
         QEmit.droppedTimeout e.msg (now - e.enqueuedAt) cfg.timeoutMs now)
     else [])

/-- `scheduleNextSend()`: clear the pending timer, prune, and if the
queue is non-empty arm the timer for `max(intervalMs - elapsed, 0)`
(elapsed is infinite while `lastSent` is the falsy 0). -/
def scheduleNextSend {μ : Type} (vb : Bool) (cfg : QCfg) (now : Nat)
    (st : QState μ) : QState μ × List (QEmit μ) :=
  let r := pruneExpired vb cfg now { st with timer := none }
  if r.1.queue.isEmpty = true then r
  else
    let delay :=
      if 0 < cfg.intervalMs ∧ r.1.lastSent ≠ 0 ∧ now - r.1.lastSent < cfg.intervalMs
      then cfg.intervalMs - (now - r.1.lastSent) else 0
    ({ r.1 with timer := some (now + delay) }, r.2)

/-- `attemptSend()`: prune, and if the queue is non-empty either defer
(interval not yet elapsed — re-schedule) or shift the front entry, set
`lastSent`, emit it on output 1, and re-schedule. -/
def attemptSend {μ : Type} (vb : Bool) (cfg : QCfg) (now : Nat)
    (st : QState μ) : QState μ × List (QEmit μ) :=
  let r := pruneExpired vb cfg now st
  match r.1.queue with
  | [] => r
  | e :: restq =>
    if 0 < cfg.intervalMs ∧ r.1.lastSent ≠ 0 ∧ now - r.1.lastSent < cfg.intervalMs
    then
      let r₂ := scheduleNextSend vb cfg now r.1
      (r₂.1, r.2 ++ r₂.2)
    else
      let r₃ := scheduleNextSend vb cfg now { r.1 with queue := restq, lastSent := now }
      (r₃.1, r.2 ++ QEmit.sent e.msg now :: r₃.2)

/-- The queue's `node.on('input')` handler: prune, reject the incoming
message when the capacity bound is active and the pruned queue is at
capacity (first implementation: route it to output 2 with overflow
metadata; second: silently ignore), otherwise append and attempt a
send. -/
def onInput {μ : Type} (vb : Bool) (cfg : QCfg) (now : Nat) (st : QState μ)
    (msg : μ) : QState μ × List (QEmit μ) :=
  let r := pruneExpired vb cfg now st
  if useQueueLimit cfg = true ∧ 0 < cfg.maxQueueSize ∧
      cfg.maxQueueSize ≤ r.1.queue.length then
    (r.1, r.2 ++ if vb then
      [QEmit.droppedOverflow msg r.1.queue.length cfg.maxQueueSize now] else [])
  else
    let r₂ := attemptSend vb cfg now { r.1 with queue := r.1.queue ++ [⟨msg, now⟩] }
    (r₂.1, r.2 ++ r₂.2)

/-- The armed send timer fires at its deadline: the callback clears the
handle and runs `attemptSend`. -/
def fireTimer {μ : Type} (vb : Bool) (cfg : QCfg) (deadline : Nat)
    (st : QState μ) : QState μ × List (QEmit μ) :=
  attemptSend vb cfg deadline { st with timer := none }

/-- Event loop of one queue instance: incoming messages are delivered
in timestamp order; whenever the armed timer's deadline has arrived it
fires before later events; after the last message the pending timers
are drained.  `fuel` bounds the number of processed steps (each event
and each timer firing costs one unit). -/
def runQueue {μ : Type} (vb : Bool) (cfg : QCfg) :
    Nat → List (Nat × μ) → QState μ → QState μ × List (QEmit μ)
  | 0, _, st => (st, [])
  | Nat.succ fuel, events, st =>
    match st.timer, events with
    | none, [] => (st, [])
    | some d, [] =>
      let r := fireTimer vb cfg d st
      let r' := runQueue vb cfg fuel [] r.1
      (r'.1, r.2 ++ r'.2)
    | some d, (t, m) :: rest =>
      if d ≤ t then
        let r := fireTimer vb cfg d st
        let r' := runQueue vb cfg fuel ((t, m) :: rest) r.1
        (r'.1, r.2 ++ r'.2)
      else
        let r := onInput vb cfg t st m
        let r' := runQueue vb cfg fuel rest r.1
        (r'.1, r.2 ++ r'.2)
    | none, (t, m) :: rest =>
      let r := onInput vb cfg t st m
      let r' := runQueue vb cfg fuel rest r.1
      (r'.1, r.2 ++ r'.2)

/-- The messages delivered on the primary channel, with their emission
timestamps, in order. -/
def sentOf {μ : Type} (l : List (QEmit μ)) : List (μ × Nat) :=
  l.filterMap (fun e =>
    match e with
    | QEmit.sent m t => some (m, t)
    | _ => none)

/-- The expected primary-channel emission stream when messages `msgs`
go out, the first at time `t` and each following one `T` later. -/
def sentStream {μ : Type} (T : Nat) : Nat → List μ → List (QEmit μ)
  | _, [] => []
  | t, m :: rest => QEmit.sent m t :: sentStream T (t + T) rest

/- ══════════════════════════════════════════════════════════════════
   Part 6.  Queue run lemmas (no capacity bound, no age bound)
   ══════════════════════════════════════════════════════════════════ -/

theorem pruneExpired_timeout_zero {μ : Type} (vb : Bool) (cfg : QCfg)
    (now : Nat) (st : QState μ) (h : cfg.timeoutMs = 0) :
    pruneExpired vb cfg now st = (st, []) := by
  simp [pruneExpired, h]

theorem runQueue_none_nil {μ : Type} (vb : Bool) (cfg : QCfg) :
    ∀ (fuel : Nat) (st : QState μ), st.timer = none →
      runQueue vb cfg fuel [] st = (st, []) := by
  intro fuel st h
  cases fuel with
  | zero => rfl
  | succ f =>
    obtain ⟨q, tm, ls⟩ := st
    simp only at h
    subst h
    rfl

theorem runQueue_drain {μ : Type} (vb : Bool) (mode : QMode) (T : Nat)
    (hT : 0 < T) :
    ∀ (q : List (QEntry μ)) (s fuel : Nat), q ≠ [] → 0 < s →
      q.length + 1 ≤ fuel →
      runQueue vb ⟨0, T, 0, mode⟩ fuel [] ⟨q, some (s + T), s⟩ =
        (⟨[], none, s + q.length * T⟩, sentStream T (s + T) (q.map QEntry.msg)) := by
  intro q
  induction q with
  | nil =>
    intro s fuel hne
    exact absurd rfl hne
  | cons e restq ih =>
    intro s fuel _ hs hf
    obtain ⟨f, rfl⟩ : ∃ f, fuel = f + 1 := ⟨fuel - 1, by omega⟩
    have hgate : ¬(0 < T ∧ s ≠ 0 ∧ s + T - s < T) := by omega
    rw [show runQueue vb ⟨0, T, 0, mode⟩ (f + 1) []
          (⟨e :: restq, some (s + T), s⟩ : QState μ) =
        ((runQueue vb ⟨0, T, 0, mode⟩ f []
            (fireTimer vb ⟨0, T, 0, mode⟩ (s + T) ⟨e :: restq, some (s + T), s⟩).1).1,
         (fireTimer vb ⟨0, T, 0, mode⟩ (s + T) ⟨e :: restq, some (s + T), s⟩).2 ++
           (runQueue vb ⟨0, T, 0, mode⟩ f []
             (fireTimer vb ⟨0, T, 0, mode⟩ (s + T) ⟨e :: restq, some (s + T), s⟩).1).2)
      from rfl]
    cases restq with
    | nil =>
      have hfire : fireTimer vb ⟨0, T, 0, mode⟩ (s + T)
          (⟨[e], some (s + T), s⟩ : QState μ) =
          (⟨[], none, s + T⟩, [QEmit.sent e.msg (s + T)]) := by
        simp [fireTimer, attemptSend, scheduleNextSend, pruneExpired, hgate]
      rw [hfire, runQueue_none_nil vb _ f _ rfl]
      simp [sentStream]
    | cons e' restq' =>
      have hgate2 : 0 < T ∧ s + T ≠ 0 ∧ s + T - (s + T) < T := by omega
      have hfire : fireTimer vb ⟨0, T, 0, mode⟩ (s + T)
          (⟨e :: e' :: restq', some (s + T), s⟩ : QState μ) =
          (⟨e' :: restq', some (s + T + T), s + T⟩, [QEmit.sent e.msg (s + T)]) := by
        simp [fireTimer, attemptSend, scheduleNextSend, pruneExpired, hgate, hgate2]
      rw [hfire]
      rw [ih (s + T) f (by simp) (by omega) (by simp at hf ⊢; omega)]
      have harith : s + T + (e' :: restq').length * T
          = s + (e :: e' :: restq').length * T := by
        simp [List.length_cons]
        ring
      rw [harith]
      simp [sentStream]

theorem onInput_rapid {μ : Type} (vb : Bool) (mode : QMode) (T t₀ : Nat)
    (hT : 0 < T) (ht : 0 < t₀) (q : List (QEntry μ)) (tm : Option Nat) (m : μ) :
    onInput vb ⟨0, T, 0, mode⟩ t₀ ⟨q, tm, t₀⟩ m =
      (⟨q ++ [⟨m, t₀⟩], some (t₀ + T), t₀⟩, []) := by
  have hgate : 0 < T ∧ t₀ ≠ 0 ∧ t₀ - t₀ < T := by omega
  simp [onInput, attemptSend, scheduleNextSend, pruneExpired, hgate]
  cases hqe : q ++ [(⟨m, t₀⟩ : QEntry μ)] with
  | nil => simp at hqe
  | cons a l => rfl

theorem runQueue_enqueue_rapid {μ : Type} (vb : Bool) (mode : QMode)
    (T t₀ : Nat) (hT : 0 < T) (ht : 0 < t₀) :
    ∀ (rest : List μ) (q : List (QEntry μ)) (fuel : Nat), q ≠ [] →
      rest.length + (q.length + rest.length) + 1 ≤ fuel →
      runQueue vb ⟨0, T, 0, mode⟩ fuel (rest.map (fun m => (t₀, m)))
          ⟨q, some (t₀ + T), t₀⟩ =
        (⟨[], none, t₀ + (q.length + rest.length) * T⟩,
         sentStream T (t₀ + T) (q.map QEntry.msg ++ rest)) := by
  intro rest
  induction rest with
  | nil =>
    intro q fuel hq hf
    rw [List.map_nil]
    rw [runQueue_drain vb mode T hT q t₀ fuel hq ht (by simp at hf ⊢; omega)]
    simp
  | cons m rest' ih =>
    intro q fuel hq hf
    obtain ⟨f, rfl⟩ : ∃ f, fuel = f + 1 := ⟨fuel - 1, by omega⟩
    rw [List.map_cons]
    have hnotfire : ¬(t₀ + T ≤ t₀) := by omega
    rw [show runQueue vb ⟨0, T, 0, mode⟩ (f + 1) ((t₀, m) :: rest'.map (fun m => (t₀, m)))
          (⟨q, some (t₀ + T), t₀⟩ : QState μ) =
        if t₀ + T ≤ t₀ then
          ((runQueue vb ⟨0, T, 0, mode⟩ f ((t₀, m) :: rest'.map (fun m => (t₀, m)))
              (fireTimer vb ⟨0, T, 0, mode⟩ (t₀ + T) ⟨q, some (t₀ + T), t₀⟩).1).1,
           (fireTimer vb ⟨0, T, 0, mode⟩ (t₀ + T) ⟨q, some (t₀ + T), t₀⟩).2 ++
             (runQueue vb ⟨0, T, 0, mode⟩ f ((t₀, m) :: rest'.map (fun m => (t₀, m)))
               (fireTimer vb ⟨0, T, 0, mode⟩ (t₀ + T) ⟨q, some (t₀ + T), t₀⟩).1).2)
        else
          ((runQueue vb ⟨0, T, 0, mode⟩ f (rest'.map (fun m => (t₀, m)))
              (onInput vb ⟨0, T, 0, mode⟩ t₀ ⟨q, some (t₀ + T), t₀⟩ m).1).1,
           (onInput vb ⟨0, T, 0, mode⟩ t₀ ⟨q, some (t₀ + T), t₀⟩ m).2 ++
             (runQueue vb ⟨0, T, 0, mode⟩ f (rest'.map (fun m => (t₀, m)))
               (onInput vb ⟨0, T, 0, mode⟩ t₀ ⟨q, some (t₀ + T), t₀⟩ m).1).2)
      from rfl]
    rw [if_neg hnotfire]
    rw [onInput_rapid vb mode T t₀ hT ht q _ m]
    dsimp only
    rw [ih (q ++ [(⟨m, t₀⟩ : QEntry μ)]) f (by simp) (by simp at hf ⊢; omega)]
    have harith : t₀ + ((q ++ [(⟨m, t₀⟩ : QEntry μ)]).length + rest'.length) * T
        = t₀ + (q.length + (m :: rest').length) * T := by
      simp only [List.length_append, List.length_cons, List.length_nil]
      ring
    rw [harith]
    have hmsgs : (q ++ [(⟨m, t₀⟩ : QEntry μ)]).map QEntry.msg ++ rest'
        = q.map QEntry.msg ++ m :: rest' := by
      simp
    rw [hmsgs]
    simp

/-- Claim C3 (primary statement): with a minimum interval `T > 0` and
no capacity or age bound, enqueuing the messages `msgs` in rapid
succession at time `t₀ > 0` yields exactly the primary-channel stream
`sentStream T t₀ msgs`: one `sent` emission per message, in FIFO
order, the first immediately and each following one exactly `T`
later. -/
theorem c3_fifo_interval_run {μ : Type} (vb : Bool) (mode : QMode)
    (T t₀ : Nat) (msgs : List μ) (hT : 0 < T) (ht : 0 < t₀) :
    (runQueue vb ⟨0, T, 0, mode⟩ (2 * msgs.length + 1)
        (msgs.map (fun m => (t₀, m))) initQ).2 = sentStream T t₀ msgs := by
  cases msgs with
  | nil =>
    simp only [List.map_nil]
    rw [runQueue_none_nil vb _ _ _ rfl]
    rfl
  | cons m rest =>
    rw [List.map_cons]
    obtain ⟨f, hfuel⟩ : ∃ f, 2 * (m :: rest).length + 1 = f + 1 :=
      ⟨2 * (m :: rest).length, by omega⟩
    rw [hfuel]
    have hfirst : onInput vb ⟨0, T, 0, mode⟩ t₀ (initQ (μ := μ)) m =
        (⟨[], none, t₀⟩, [QEmit.sent m t₀]) := by
      have hns : ¬(0 < T ∧ (0:Nat) ≠ 0 ∧ t₀ - 0 < T) := by omega
      simp [onInput, attemptSend, scheduleNextSend, pruneExpired, initQ, hns]
    rw [show runQueue vb ⟨0, T, 0, mode⟩ (f + 1)
          ((t₀, m) :: rest.map (fun m => (t₀, m))) (initQ (μ := μ)) =
        ((runQueue vb ⟨0, T, 0, mode⟩ f (rest.map (fun m => (t₀, m)))
            (onInput vb ⟨0, T, 0, mode⟩ t₀ initQ m).1).1,
         (onInput vb ⟨0, T, 0, mode⟩ t₀ initQ m).2 ++
           (runQueue vb ⟨0, T, 0, mode⟩ f (rest.map (fun m => (t₀, m)))
             (onInput vb ⟨0, T, 0, mode⟩ t₀ initQ m).1).2)
      from rfl]
    rw [hfirst]
    dsimp only
    cases rest with
    | nil =>
      simp only [List.map_nil]
      rw [runQueue_none_nil vb _ f _ rfl]
      simp [sentStream]
    | cons m₂ rest' =>
      obtain ⟨f', hf'⟩ : ∃ f', f = f' + 1 := ⟨f - 1, by simp at hfuel; omega⟩
      rw [hf', List.map_cons]
      rw [show runQueue vb ⟨0, T, 0, mode⟩ (f' + 1)
            ((t₀, m₂) :: rest'.map (fun m => (t₀, m)))
            (⟨[], none, t₀⟩ : QState μ) =
          ((runQueue vb ⟨0, T, 0, mode⟩ f' (rest'.map (fun m => (t₀, m)))
              (onInput vb ⟨0, T, 0, mode⟩ t₀ ⟨[], none, t₀⟩ m₂).1).1,
           (onInput vb ⟨0, T, 0, mode⟩ t₀ ⟨[], none, t₀⟩ m₂).2 ++
             (runQueue vb ⟨0, T, 0, mode⟩ f' (rest'.map (fun m => (t₀, m)))
               (onInput vb ⟨0, T, 0, mode⟩ t₀ ⟨[], none, t₀⟩ m₂).1).2)
        from rfl]
      rw [onInput_rapid vb mode T t₀ hT ht [] none m₂]
      dsimp only
      simp only [List.nil_append]
      rw [runQueue_enqueue_rapid vb mode T t₀ hT ht rest' [(⟨m₂, t₀⟩ : QEntry μ)] f'
        (by simp) (by simp at hfuel hf' ⊢; omega)]
      simp [sentStream]

/- ══════════════════════════════════════════════════════════════════
   Part 7.  Comparing the two queue implementations (claim C10)
   ══════════════════════════════════════════════════════════════════ -/

theorem sentOf_append {μ : Type} (l₁ l₂ : List (QEmit μ)) :
    sentOf (l₁ ++ l₂) = sentOf l₁ ++ sentOf l₂ := by
  unfold sentOf
  exact List.filterMap_append _ _ _

theorem sentOf_droppedTimeout_map {μ : Type} (l : List (QEntry μ))
    (tmo now : Nat) :
    sentOf (l.map (fun e =>
      QEmit.droppedTimeout e.msg (now - e.enqueuedAt) tmo now)) = [] := by
  induction l with
  | nil => rfl
  | cons e rest ih =>
    simp [sentOf, List.filterMap_cons, ih]

theorem sentOf_cons_sent {μ : Type} (m : μ) (t : Nat) (l : List (QEmit μ)) :
    sentOf (QEmit.sent m t :: l) = (m, t) :: sentOf l := rfl

theorem pruneExpired_fst_vb {μ : Type} (vb vb' : Bool) (cfg : QCfg)
    (now : Nat) (st : QState μ) :
    (pruneExpired vb cfg now st).1 = (pruneExpired vb' cfg now st).1 := by
  unfold pruneExpired
  split <;> rfl

theorem pruneExpired_sentOf {μ : Type} (vb : Bool) (cfg : QCfg) (now : Nat)
    (st : QState μ) : sentOf (pruneExpired vb cfg now st).2 = [] := by
  unfold pruneExpired
  split
  · rfl
  · dsimp only
    cases vb with
    | true => exact sentOf_droppedTimeout_map _ _ _
    | false => rfl

theorem scheduleNextSend_fst_vb {μ : Type} (vb vb' : Bool) (cfg : QCfg)
    (now : Nat) (st : QState μ) :
    (scheduleNextSend vb cfg now st).1 = (scheduleNextSend vb' cfg now st).1 := by
  have h := pruneExpired_fst_vb vb vb' cfg now { st with timer := none }
  unfold scheduleNextSend
  rw [apply_ite Prod.fst, apply_ite Prod.fst]
  dsimp only
  rw [h]

theorem scheduleNextSend_sentOf {μ : Type} (vb : Bool) (cfg : QCfg)
    (now : Nat) (st : QState μ) :
    sentOf (scheduleNextSend vb cfg now st).2 = [] := by
  unfold scheduleNextSend
  dsimp only
  split
  · exact pruneExpired_sentOf vb cfg now _
  · exact pruneExpired_sentOf vb cfg now _

theorem attemptSend_fst_vb {μ : Type} (vb vb' : Bool) (cfg : QCfg)
    (now : Nat) (st : QState μ) :
    (attemptSend vb cfg now st).1 = (attemptSend vb' cfg now st).1 := by
  have h := pruneExpired_fst_vb vb vb' cfg now st
  unfold attemptSend
  dsimp only
  rw [h]
  rcases hq : (pruneExpired vb' cfg now st).1.queue with _ | ⟨e, restq⟩
  · dsimp only
    exact h
  · dsimp only
    split
    · exact scheduleNextSend_fst_vb vb vb' cfg now _
    · exact scheduleNextSend_fst_vb vb vb' cfg now _

theorem attemptSend_sentOf_vb {μ : Type} (vb vb' : Bool) (cfg : QCfg)
    (now : Nat) (st : QState μ) :
    sentOf (attemptSend vb cfg now st).2 = sentOf (attemptSend vb' cfg now st).2 := by
  have h := pruneExpired_fst_vb vb vb' cfg now st
  unfold attemptSend
  dsimp only
  rw [h]
  rcases hq : (pruneExpired vb' cfg now st).1.queue with _ | ⟨e, restq⟩
  · dsimp only
    rw [pruneExpired_sentOf, pruneExpired_sentOf]
  · dsimp only
    split
    · rw [sentOf_append, sentOf_append, pruneExpired_sentOf, pruneExpired_sentOf,
        scheduleNextSend_sentOf, scheduleNextSend_sentOf]
    · rw [sentOf_append, sentOf_append, pruneExpired_sentOf, pruneExpired_sentOf,
        sentOf_cons_sent, sentOf_cons_sent,
        scheduleNextSend_sentOf vb, scheduleNextSend_sentOf vb']

theorem onInput_fst_vb {μ : Type} (vb vb' : Bool) (cfg : QCfg) (now : Nat)
    (st : QState μ) (m : μ) :
    (onInput vb cfg now st m).1 = (onInput vb' cfg now st m).1 := by
  have h := pruneExpired_fst_vb vb vb' cfg now st
  unfold onInput
  dsimp only
  rw [h]
  split
  · rfl
  · dsimp only
    exact attemptSend_fst_vb vb vb' cfg now _

theorem onInput_sentOf_vb {μ : Type} (vb vb' : Bool) (cfg : QCfg) (now : Nat)
    (st : QState μ) (m : μ) :
    sentOf (onInput vb cfg now st m).2 = sentOf (onInput vb' cfg now st m).2 := by
  have h := pruneExpired_fst_vb vb vb' cfg now st
  unfold onInput
  dsimp only
  rw [h]
  split
  · rw [sentOf_append, sentOf_append, pruneExpired_sentOf, pruneExpired_sentOf]
    cases vb <;> cases vb' <;> rfl
  · dsimp only
    rw [sentOf_append, sentOf_append, pruneExpired_sentOf, pruneExpired_sentOf,
      attemptSend_sentOf_vb vb vb' cfg now _]

theorem runQueue_variants {μ : Type} (cfg : QCfg) :
    ∀ (fuel : Nat) (events : List (Nat × μ)) (st : QState μ) (vb vb' : Bool),
      (runQueue vb cfg fuel events st).1 = (runQueue vb' cfg fuel events st).1
      ∧ sentOf (runQueue vb cfg fuel events st).2
        = sentOf (runQueue vb' cfg fuel events st).2 := by
  intro fuel
  induction fuel with
  | zero =>
    intro _ _ _ _
    exact ⟨rfl, rfl⟩
  | succ f ih =>
    intro events st vb vb'
    obtain ⟨q, tm, ls⟩ := st
    cases tm with
    | none =>
      cases events with
      | nil => exact ⟨rfl, rfl⟩
      | cons ev rest =>
        obtain ⟨t, m⟩ := ev
        have hOn := onInput_fst_vb vb vb' cfg t ⟨q, none, ls⟩ m
        have hOnS := onInput_sentOf_vb vb vb' cfg t ⟨q, none, ls⟩ m
        have hih := ih rest (onInput vb' cfg t ⟨q, none, ls⟩ m).1 vb vb'
        constructor
        · simp only [runQueue]
          rw [hOn]
          exact hih.1
        · simp only [runQueue]
          rw [sentOf_append, sentOf_append, hOn, hOnS, hih.2]
    | some d =>
      cases events with
      | nil =>
        have hF : (fireTimer vb cfg d ⟨q, some d, ls⟩).1
            = (fireTimer vb' cfg d ⟨q, some d, ls⟩).1 :=
          attemptSend_fst_vb vb vb' cfg d _
        have hFS : sentOf (fireTimer vb cfg d ⟨q, some d, ls⟩).2
            = sentOf (fireTimer vb' cfg d ⟨q, some d, ls⟩).2 :=
          attemptSend_sentOf_vb vb vb' cfg d _
        have hih := ih [] (fireTimer vb' cfg d ⟨q, some d, ls⟩).1 vb vb'
        constructor
        · simp only [runQueue]
          rw [hF]
          exact hih.1
        · simp only [runQueue]
          rw [sentOf_append, sentOf_append, hF, hFS, hih.2]
      | cons ev rest =>
        obtain ⟨t, m⟩ := ev
        by_cases hd : d ≤ t
        · have hF : (fireTimer vb cfg d ⟨q, some d, ls⟩).1
              = (fireTimer vb' cfg d ⟨q, some d, ls⟩).1 :=
            attemptSend_fst_vb vb vb' cfg d _
          have hFS : sentOf (fireTimer vb cfg d ⟨q, some d, ls⟩).2
              = sentOf (fireTimer vb' cfg d ⟨q, some d, ls⟩).2 :=
            attemptSend_sentOf_vb vb vb' cfg d _
          have hih := ih ((t, m) :: rest) (fireTimer vb' cfg d ⟨q, some d, ls⟩).1 vb vb'
          constructor
          · simp only [runQueue]
            rw [if_pos hd, if_pos hd]
            dsimp only
            rw [hF]
            exact hih.1
          · simp only [runQueue]
            rw [if_pos hd, if_pos hd]
            dsimp only
            rw [sentOf_append, sentOf_append, hF, hFS, hih.2]
        · have hOn := onInput_fst_vb vb vb' cfg t ⟨q, some d, ls⟩ m
          have hOnS := onInput_sentOf_vb vb vb' cfg t ⟨q, some d, ls⟩ m
          have hih := ih rest (onInput vb' cfg t ⟨q, some d, ls⟩ m).1 vb vb'
          constructor
          · simp only [runQueue]
            rw [if_neg hd, if_neg hd]
            dsimp only
            rw [hOn]
            exact hih.1
          · simp only [runQueue]
            rw [if_neg hd, if_neg hd]
            dsimp only
            rw [sentOf_append, sentOf_append, hOn, hOnS, hih.2]

/- ══════════════════════════════════════════════════════════════════
   Part 8.  Position tagger (`rp-array-in` with
   `NodeUtils.resolveArrayPosition`, src/unnamed lib module)
   ══════════════════════════════════════════════════════════════════ -/

/-- A small universe of JS values relevant to position resolution. -/
inductive JVal where
  | vnull
  | vundef
  | vnum (n : Int)
  | vstr (s : String)
deriving Repr, DecidableEq

/-- JS `String(value)` on the modelled values. -/
def jsToString : JVal → String
  | JVal.vnull => "null"
  | JVal.vundef => "undefined"
  | JVal.vnum n => toString n
  | JVal.vstr s => s

/-- Whitespace removed from both ends of a character list. -/
def trimChars (l : List Char) : List Char :=
  ((l.dropWhile Char.isWhitespace).reverse.dropWhile Char.isWhitespace).reverse

/-- JS `String.prototype.trim`. -/
def jsTrim (s : String) : String :=
  ⟨trimChars s.data⟩

/-- The leading decimal digits of a character list. -/
def leadingDigits : List Char → List Char
  | [] => []
  | c :: cs => if c.isDigit then c :: leadingDigits cs else []

/-- Decimal value of a digit list. -/
def digitsToNat (l : List Char) : Nat :=
  l.foldl (fun a c => a * 10 + (c.toNat - Char.toNat '0')) 0

/-- JS `parseInt` on a string (base 10): skip surrounding whitespace,
accept an optional sign and at least one leading digit, ignore the
rest; `none` models `NaN`. -/
def jsParseInt (s : String) : Option Int :=
  match (jsTrim s).data with
  | [] => none
  | '-' :: cs =>
    let ds := leadingDigits cs
    if ds = [] then none else some (-(digitsToNat ds : Int))
  | '+' :: cs =>
    let ds := leadingDigits cs
    if ds = [] then none else some ((digitsToNat ds : Int))
  | cs =>
    let ds := leadingDigits cs
    if ds = [] then none else some ((digitsToNat ds : Int))

/-- `config.arrayPositionType` after normalisation: a dynamic scope or
the direct (`num`) value. -/
inductive PosType where
  | num
  | msg
  | flow
  | global
deriving Repr, DecidableEq

/-- The value the position is parsed from: for the `msg`/`flow`/`global`
scopes the result of `RED.util.evaluateNodeProperty` (abstracted as
`env`), otherwise the configured value itself. -/
def resolvedPositionValue (typ : PosType) (value : JVal)
    (env : PosType → JVal → JVal) : JVal :=
  match typ with
  | PosType.msg => env PosType.msg value
  | PosType.flow => env PosType.flow value
  | PosType.global => env PosType.global value
  | PosType.num => value

/-- `NodeUtils.resolveArrayPosition`: a null, undefined, or blank
specification resolves to the default position 0; otherwise the
(possibly looked-up) value is passed through `parseInt` and must be a
non-negative integer, else the call throws (`none`). -/
def resolveArrayPosition (typ : PosType) (value : JVal)
    (env : PosType → JVal → JVal) : Option Int :=
  if value = JVal.vnull ∨ value = JVal.vundef ∨ jsTrim (jsToString value) = ""
  then some 0
  else
    match jsParseInt (jsToString (resolvedPositionValue typ value env)) with
    | none => none
    | some n => if n < 0 then none else some n

/-- The `rp-array-in` input handler, reduced to its position logic: a
failed resolution is caught, a warning logged and the event dropped
with no output (`none`); on success exactly one message goes out with
`msg.meta.arrayPosition` set to the resolved position and
`msg.meta.arrayData` to the extracted data (`none` models data missing
at the input path, which is passed on as null, not an error). -/
def arrayInOnInput {β : Type} (typ : PosType) (value : JVal)
    (env : PosType → JVal → JVal) (arrayData : Option β) :
    Option (Int × Option β) :=
  match resolveArrayPosition typ value env with
  | none => none
  | some pos => some (pos, arrayData)

/-- Claim C9: a null/undefined/blank position specification resolves to
0; a specification that does not `parseInt` to an integer ≥ 0 makes the
operation fail, in which case the tagger drops the event with no
message on any channel; on success the resolved non-negative integer is
attached to the outgoing event as the position tag. -/
theorem c9_position_resolution {β : Type} (typ : PosType) (value : JVal)
    (env : PosType → JVal → JVal) (arrayData : Option β) :
    ((value = JVal.vnull ∨ value = JVal.vundef ∨ jsTrim (jsToString value) = "") →
        resolveArrayPosition typ value env = some 0)
    ∧ (resolveArrayPosition typ value env = none ↔
        (¬(value = JVal.vnull ∨ value = JVal.vundef ∨ jsTrim (jsToString value) = "")
         ∧ (jsParseInt (jsToString (resolvedPositionValue typ value env)) = none
            ∨ ∃ n, jsParseInt (jsToString (resolvedPositionValue typ value env))
                = some n ∧ n < 0)))
    ∧ (resolveArrayPosition typ value env = none →
        arrayInOnInput typ value env arrayData = none)
    ∧ (∀ n, resolveArrayPosition typ value env = some n →
        0 ≤ n ∧ arrayInOnInput typ value env arrayData = some (n, arrayData)) := by
  refine ⟨?_, ?_, ?_, ?_⟩
  · intro h
    simp [resolveArrayPosition, h]
  · unfold resolveArrayPosition
    by_cases h : value = JVal.vnull ∨ value = JVal.vundef ∨
        jsTrim (jsToString value) = ""
    · simp [h]
    · rw [if_neg h]
      cases hp : jsParseInt (jsToString (resolvedPositionValue typ value env)) with
      | none => simp [h, hp]
      | some n =>
        by_cases hn : n < 0
        · simp only [if_pos hn]
          simp [h, hn]
        · simp only [if_neg hn]
          simp [h, hn]
  · intro h
    simp [arrayInOnInput, h]
  · intro n h
    refine ⟨?_, by simp [arrayInOnInput, h]⟩
    unfold resolveArrayPosition at h
    split at h
    · simp at h
      omega
    · rcases hp : jsParseInt (jsToString (resolvedPositionValue typ value env))
        with _ | m
      · rw [hp] at h
        simp at h
      · rw [hp] at h
        dsimp only at h
        by_cases hm : m < 0
        · rw [if_pos hm] at h
          simp at h
        · rw [if_neg hm] at h
          simp at h
          omega

/- ══════════════════════════════════════════════════════════════════
   Part 9.  Remaining queue claims
   ══════════════════════════════════════════════════════════════════ -/

theorem sentOf_sentStream {μ : Type} (T : Nat) :
    ∀ (t : Nat) (msgs : List μ),
      (sentOf (sentStream T t msgs)).map Prod.fst = msgs := by
  intro t msgs
  induction msgs generalizing t with
  | nil => rfl
  | cons m rest ih =>
    simp only [sentStream, sentOf_cons_sent, List.map_cons]
    rw [ih (t + T)]

theorem chain_sentOf_sentStream {μ : Type} (T : Nat) :
    ∀ (t : Nat) (msgs : List μ),
      List.Chain' (fun a b => a.2 + T ≤ b.2) (sentOf (sentStream T t msgs)) := by
  intro t msgs
  induction msgs generalizing t with
  | nil => simp [sentStream, sentOf]
  | cons m rest ih =>
    simp only [sentStream, sentOf_cons_sent]
    apply List.chain'_cons'.mpr
    refine ⟨?_, ih (t + T)⟩
    intro b hb
    cases rest with
    | nil => simp [sentStream, sentOf] at hb
    | cons m' rest' =>
      simp only [sentStream, sentOf_cons_sent, List.head?_cons,
        Option.mem_def, Option.some.injEq] at hb
      rw [← hb]

theorem sentStream_all_sent {μ : Type} (T : Nat) :
    ∀ (t : Nat) (msgs : List μ) (e : QEmit μ), e ∈ sentStream T t msgs →
      ∃ m tt, e = QEmit.sent m tt := by
  intro t msgs
  induction msgs generalizing t with
  | nil =>
    intro e he
    simp [sentStream] at he
  | cons m rest ih =>
    intro e he
    simp only [sentStream, List.mem_cons] at he
    rcases he with rfl | he
    · exact ⟨m, t, rfl⟩
    · exact ih (t + T) e he

/-- Claim C3: for a queue with minimum interval `T > 0` and no capacity
or age bound, enqueuing `N` messages in rapid succession (all at time
`t₀ > 0`) yields exactly `N` primary-channel emissions in FIFO order —
the stream `sentStream T t₀ msgs` — with consecutive emission
timestamps at least `T` apart (the first immediate), and nothing else
is emitted. -/
theorem c3_fifo_interval {μ : Type} (vb : Bool) (mode : QMode) (T t₀ : Nat)
    (msgs : List μ) (hT : 0 < T) (ht : 0 < t₀) :
    (runQueue vb ⟨0, T, 0, mode⟩ (2 * msgs.length + 1)
        (msgs.map (fun m => (t₀, m))) initQ).2 = sentStream T t₀ msgs
    ∧ (sentOf (runQueue vb ⟨0, T, 0, mode⟩ (2 * msgs.length + 1)
        (msgs.map (fun m => (t₀, m))) initQ).2).map Prod.fst = msgs
    ∧ List.Chain' (fun a b => a.2 + T ≤ b.2)
        (sentOf (runQueue vb ⟨0, T, 0, mode⟩ (2 * msgs.length + 1)
          (msgs.map (fun m => (t₀, m))) initQ).2)
    ∧ ∀ e ∈ (runQueue vb ⟨0, T, 0, mode⟩ (2 * msgs.length + 1)
        (msgs.map (fun m => (t₀, m))) initQ).2, ∃ m tt, e = QEmit.sent m tt := by
  have h := c3_fifo_interval_run vb mode T t₀ msgs hT ht
  refine ⟨h, ?_, ?_, ?_⟩
  · rw [h, sentOf_sentStream]
  · rw [h]
    exact chain_sentOf_sentStream T t₀ msgs
  · rw [h]
    exact sentStream_all_sent T t₀ msgs

/-- Claim C4: when the capacity bound `K > 0` is active and the queue
already holds `K` entries after pruning, the incoming message is routed
immediately to the secondary channel with overflow metadata (reason,
queue size at drop, configured capacity) and the buffered entries are
untouched (first queue implementation, which routes drops). -/
theorem c4_overflow_reject {μ : Type} (cfg : QCfg) (now : Nat)
    (st : QState μ) (m : μ)
    (hmode : useQueueLimit cfg = true) (hK : 0 < cfg.maxQueueSize)
    (hfull : (pruneExpired true cfg now st).1.queue.length = cfg.maxQueueSize) :
    onInput true cfg now st m =
      ((pruneExpired true cfg now st).1,
       (pruneExpired true cfg now st).2
         ++ [QEmit.droppedOverflow m cfg.maxQueueSize cfg.maxQueueSize now]) := by
  unfold onInput
  dsimp only
  rw [if_pos ⟨hmode, hK, le_of_eq hfull.symm⟩, hfull]
  simp

/- ══════════════════════════════════════════════════════════════════
   Part 10.  Queue behaviour under a failing host send (claim C7)

   The only fallible host operation in the queue's input path is
   `node.send`.  The `F` functions re-trace the source under the
   modelling assumption that the first `node.send` call throws:
   `Except.error s` is an exception escaping to the input handler's
   `catch` (which only sets the status) with instance state `s`;
   `Except.ok s` means the path made no send call.
   ══════════════════════════════════════════════════════════════════ -/

/-- `pruneExpired` with a throwing send: the expired entries are
already shifted off the queue before the first send of a dropped
message (first implementation) throws; the second implementation sends
nothing while pruning. -/
def pruneExpiredF {μ : Type} (vb : Bool) (cfg : QCfg) (now : Nat)
    (st : QState μ) : Except (QState μ) (QState μ) :=
  if useTimeout cfg = false ∨ cfg.timeoutMs = 0 ∨ st.queue.isEmpty = true then
    Except.ok st
  else
    let r := splitExpired now cfg.timeoutMs st.queue
    if vb = true ∧ r.1.isEmpty = false then Except.error { st with queue := r.2 }
    else Except.ok { st with queue := r.2 }

/-- `scheduleNextSend` with a throwing send (itself makes no send
call). -/
def scheduleNextSendF {μ : Type} (vb : Bool) (cfg : QCfg) (now : Nat)
    (st : QState μ) : Except (QState μ) (QState μ) :=
  match pruneExpiredF vb cfg now { st with timer := none } with
  | Except.error s => Except.error s
  | Except.ok s₁ =>
    if s₁.queue.isEmpty = true then Except.ok s₁
    else
      let delay :=
        if 0 < cfg.intervalMs ∧ s₁.lastSent ≠ 0 ∧ now - s₁.lastSent < cfg.intervalMs
        then cfg.intervalMs - (now - s₁.lastSent) else 0
      Except.ok { s₁ with timer := some (now + delay) }

/-- `attemptSend` with a throwing send: the front entry is shifted and
`lastSent` updated before `node.send(entry.msg)` throws, so the
re-scheduling after the send is never reached. -/
def attemptSendF {μ : Type} (vb : Bool) (cfg : QCfg) (now : Nat)
    (st : QState μ) : Except (QState μ) (QState μ) :=
  match pruneExpiredF vb cfg now st with
  | Except.error s => Except.error s
  | Except.ok s₁ =>
    match s₁.queue with
    | [] => Except.ok s₁
    | _ :: restq =>
      if 0 < cfg.intervalMs ∧ s₁.lastSent ≠ 0 ∧ now - s₁.lastSent < cfg.intervalMs
      then scheduleNextSendF vb cfg now s₁
      else Except.error { s₁ with queue := restq, lastSent := now }

/-- The queue input handler with a throwing send: the overflow path
sends in the first implementation only. -/
def onInputF {μ : Type} (vb : Bool) (cfg : QCfg) (now : Nat) (st : QState μ)
    (m : μ) : Except (QState μ) (QState μ) :=
  match pruneExpiredF vb cfg now st with
  | Except.error s => Except.error s
  | Except.ok s₁ =>
    if useQueueLimit cfg = true ∧ 0 < cfg.maxQueueSize ∧
        cfg.maxQueueSize ≤ s₁.queue.length then
      if vb = true then Except.error s₁ else Except.ok s₁
    else attemptSendF vb cfg now { s₁ with queue := s₁.queue ++ [⟨m, now⟩] }

/-- The instance state visible to subsequent events after an input
whose first host send threw: the `catch` handler only sets the status,
so the state is whatever the escape point left. -/
def inputStateAfterSendFailure {μ : Type} (vb : Bool) (cfg : QCfg)
    (now : Nat) (st : QState μ) (m : μ) : QState μ :=
  match onInputF vb cfg now st m with
  | Except.error s => s
  | Except.ok s => s

/-- Claim C7 counterexample: with an age bound of 5 ms, a queue holding
one expired entry, and an input at t = 10 whose drop-send throws, the
state afterwards (expired entry removed and never delivered, incoming
message lost, `lastSent` untouched) is neither the state from before
the event nor the fully committed state — the all-or-nothing claim
fails on the queue. -/
theorem c7_counterexample :
    inputStateAfterSendFailure true ⟨0, 0, 5, QMode.legacy⟩ 10
        (⟨[⟨(1 : Nat), 0⟩], none, 0⟩ : QState Nat) 2
      ≠ (⟨[⟨1, 0⟩], none, 0⟩ : QState Nat)
    ∧ inputStateAfterSendFailure true ⟨0, 0, 5, QMode.legacy⟩ 10
        (⟨[⟨(1 : Nat), 0⟩], none, 0⟩ : QState Nat) 2
      ≠ (onInput true ⟨0, 0, 5, QMode.legacy⟩ 10
          (⟨[⟨(1 : Nat), 0⟩], none, 0⟩ : QState Nat) 2).1 := by
  decide

/-- Claim C8 (amended): each instance keeps at most one *state-driving*
timer — the collector arms its collection timer only from the idle
state (in every reachable state an armed timer implies an active
cycle, so arming never clobbers a pending handle), and the queue's
`scheduleNextSend` clears the previous handle before re-arming (its
result is the same as from a state with no timer pending); the
fire-and-forget status-reset timers are exempt from the bound. -/
theorem c8_single_state_timer {α μ : Type} (cfg : ACfg) (qcfg : QCfg) :
    (∀ evs : List (Nat × AEvent α),
      (runA cfg initA evs).1.timerArmed = true →
        (runA cfg initA evs).1.isCollecting = true)
    ∧ (∀ (vb : Bool) (now : Nat) (st : QState μ),
        scheduleNextSend vb qcfg now st
          = scheduleNextSend vb qcfg now { st with timer := none }) := by
  constructor
  · intro evs
    exact runA_timer_inv cfg evs initA (by simp [initA])
  · intro vb now st
    rfl

/-- Claim C8 counterexample: with `expectedCount = 1`, completing a
cycle schedules a fire-and-forget status-reset timer, and a second
submit then arms the collection timer while that one is still pending —
two timer callbacks are outstanding for one instance. -/
theorem c8_counterexample :
    2 ≤ pendingTimers ((runA ⟨1, 5000⟩ initA
      [(1, AEvent.submit 0 (0 : Nat)), (2, AEvent.submit 0 0)]).1) := by
  decide

/-- Claim C10 (amended): the two `rp-queue` implementations agree on
the queue state evolution and on every primary-channel emission, for
every configuration, event trace, and fuel; they differ only in
secondary-channel drop routing. -/
theorem c10_variant_agreement {μ : Type} (cfg : QCfg) (fuel : Nat)
    (events : List (Nat × μ)) (st : QState μ) :
    (runQueue true cfg fuel events st).1 = (runQueue false cfg fuel events st).1
    ∧ sentOf (runQueue true cfg fuel events st).2
      = sentOf (runQueue false cfg fuel events st).2 :=
  runQueue_variants cfg fuel events st true false

/-- Claim C10 counterexample: with capacity 1 and interval 100, three
messages at t = 1 make the first implementation emit an overflow drop
on output 2 that the second implementation never emits — the two
registered implementations are not observationally equivalent. -/
theorem c10_counterexample :
    (runQueue true ⟨1, 100, 0, QMode.legacy⟩ 7
        [(1, (0 : Nat)), (1, 1), (1, 2)] initQ).2
      ≠ (runQueue false ⟨1, 100, 0, QMode.legacy⟩ 7
          [(1, (0 : Nat)), (1, 1), (1, 2)] initQ).2 := by
  decide

/- ══════════════════════════════════════════════════════════════════
   Part 11.  Concrete witnesses
   ══════════════════════════════════════════════════════════════════ -/

theorem c1_witness :
    1 ≤ (⟨2, 1000⟩ : ACfg).expectedCount
    ∧ (List.map Prod.fst [((1 : Nat), (10 : Nat)), (0, 20)]).Perm (List.range 2)
    ∧ runA ⟨2, 1000⟩ initA (submitEvents 5 [((1 : Nat), (10 : Nat)), (0, 20)]) =
        (⟨[], false, none, false, 1⟩,
         [AEmit.success ((List.range 2).map
            (fun j => List.lookup j [((1 : Nat), (10 : Nat)), (0, 20)]))]) :=
  ⟨by decide, by decide,
   (c1_completion ⟨2, 1000⟩ 5 [(1, 10), (0, 20)] (by decide) (by decide)).1⟩

theorem c2_witness :
    ([((1 : Nat), (7 : Nat)), (0, 9)] ≠ [])
    ∧ (List.map Prod.fst [((1 : Nat), (7 : Nat)), (0, 9)]).Nodup
    ∧ (∀ p ∈ List.map Prod.fst [((1 : Nat), (7 : Nat)), (0, 9)], p < 3)
    ∧ [((1 : Nat), (7 : Nat)), (0, 9)].length < 3
    ∧ runA ⟨3, 1000⟩ initA
        (submitEvents 2 [((1 : Nat), (7 : Nat)), (0, 9)]
          ++ [(1002, AEvent.timerFire)]) =
        (⟨[], false, none, false, 1⟩,
         [AEmit.timeoutEmit
            ((List.range 3).map
              (fun j => List.lookup j [((1 : Nat), (7 : Nat)), (0, 9)]))
            ((List.range 3).filter
              (fun j => (List.lookup j [((1 : Nat), (7 : Nat)), (0, 9)]).isNone))
            (List.insertionSort (· ≤ ·)
              (List.map Prod.fst [((1 : Nat), (7 : Nat)), (0, 9)]))
            3 [((1 : Nat), (7 : Nat)), (0, 9)].length (1002 - 2)]) :=
  ⟨by decide, by decide, by decide, by decide,
   c2_timeout_emission ⟨3, 1000⟩ 2 1002 [(1, 7), (0, 9)]
     (by decide) (by decide) (by decide) (by decide)⟩

theorem c3_witness :
    (0 : Nat) < 2 ∧ (0 : Nat) < 1
    ∧ (runQueue true ⟨0, 2, 0, QMode.legacy⟩ (2 * [(10 : Nat), 20, 30].length + 1)
        ([(10 : Nat), 20, 30].map (fun m => (1, m))) initQ).2 =
      sentStream 2 1 [10, 20, 30] :=
  ⟨by decide, by decide,
   (c3_fifo_interval true QMode.legacy 2 1 [10, 20, 30] (by decide) (by decide)).1⟩

theorem c4_witness :
    useQueueLimit ⟨1, 10, 0, QMode.legacy⟩ = true
    ∧ 0 < (1 : Nat)
    ∧ (pruneExpired true ⟨1, 10, 0, QMode.legacy⟩ 3
        (⟨[⟨(5 : Nat), 0⟩], none, 0⟩ : QState Nat)).1.queue.length = 1
    ∧ onInput true ⟨1, 10, 0, QMode.legacy⟩ 3
        (⟨[⟨(5 : Nat), 0⟩], none, 0⟩ : QState Nat) 7 =
      ((pruneExpired true ⟨1, 10, 0, QMode.legacy⟩ 3
          (⟨[⟨(5 : Nat), 0⟩], none, 0⟩ : QState Nat)).1,
       (pruneExpired true ⟨1, 10, 0, QMode.legacy⟩ 3
          (⟨[⟨(5 : Nat), 0⟩], none, 0⟩ : QState Nat)).2
         ++ [QEmit.droppedOverflow 7 1 1 3]) :=
  ⟨by decide, by decide, by decide,
   c4_overflow_reject ⟨1, 10, 0, QMode.legacy⟩ 3 _ 7
     (by decide) (by decide) (by decide)⟩

theorem c5_witness :
    submit ⟨2, 100⟩ 0 (initA (α := Nat)) (-1) 5 = (initA, [])
    ∧ ∀ k ∈ (runA ⟨2, 100⟩ initA
        [(1, AEvent.submit 0 (5 : Nat))]).1.collection.map Prod.fst, k < 2 :=
  ⟨(c5_range_invariant ⟨2, 100⟩).1 initA (-1) 5 0 (by decide),
   (c5_range_invariant ⟨2, 100⟩).2 [(1, AEvent.submit 0 5)]⟩

theorem c6_witness :
    (0 : Nat) < 3
    ∧ (∀ q ∈ List.map Prod.fst [((1 : Nat), (8 : Nat))], q < 3)
    ∧ (∀ q ∈ List.map Prod.fst ([] : List (Nat × Nat)), q < 3)
    ∧ ((0 : Nat) ∉ List.map Prod.fst ([] : List (Nat × Nat)))
    ∧ (runA ⟨3, 1000⟩ initA
        (submitEvents 1 ((0, (5 : Nat)) :: ([(1, 8)] ++ (0, 6) :: [])))).2 = []
    ∧ (runA ⟨3, 1000⟩ initA
        (submitEvents 1
          ((0, (5 : Nat)) :: ([(1, 8)] ++ (0, 6) :: [])))).1.collection.lookup 0
      = some 6 :=
  ⟨by decide, by decide, by decide, by decide, by decide,
   (c6_overwrite ⟨3, 1000⟩ 1 0 5 6 [(1, 8)] []
     (by decide) (by decide) (by decide) (by decide) (by decide)).1⟩

theorem c7_witness :
    (submit ⟨1, 5000⟩ 3 (initA (α := Nat)) 0 0).2 ≠ []
    ∧ coreOf (submitEmitFails ⟨1, 5000⟩ 3 (initA (α := Nat)) 0 0)
      = coreOf (submit ⟨1, 5000⟩ 3 (initA (α := Nat)) 0 0).1 :=
  ⟨by decide, (c7_collector_commit ⟨1, 5000⟩ 3 initA 0 0).1 (by decide)⟩

theorem c8_witness :
    (runA ⟨2, 100⟩ initA [(1, AEvent.submit 0 (0 : Nat))]).1.timerArmed = true
    ∧ (runA ⟨2, 100⟩ initA [(1, AEvent.submit 0 (0 : Nat))]).1.isCollecting = true :=
  ⟨by decide,
   (c8_single_state_timer (μ := Nat) ⟨2, 100⟩ ⟨0, 0, 0, QMode.legacy⟩).1
     [(1, AEvent.submit 0 0)] (by decide)⟩

theorem c9_witness :
    resolveArrayPosition PosType.num (JVal.vnum 3) (fun _ _ => JVal.vnull) = some 3
    ∧ (0 ≤ (3 : Int)
       ∧ arrayInOnInput PosType.num (JVal.vnum 3) (fun _ _ => JVal.vnull)
           (some (7 : Nat)) = some (3, some 7)) :=
  ⟨by decide,
   (c9_position_resolution PosType.num (JVal.vnum 3) (fun _ _ => JVal.vnull)
     (some 7)).2.2.2 3 (by decide)⟩
